import Mathlib

/-!
Verification of the seqmut sequence lock (src/pkg/seqmut/rwmutex.go).

The Go code is a sequence lock: an `RWMutex` holding a `sync.Mutex` and a
`uint64` sequence counter. Readers capture a stamp (`RStamp`), run their
critical section, and validate with `Ok`; writers `Lock` (acquire mutex,
increment sequence) and `Unlock` (increment sequence, release mutex).

We embed the state as a structure with the mutex-held bit and the sequence
as a natural number reduced modulo 2^64 (Go uint64 arithmetic wraps
silently), and each method as a function on that state. A multi-writer
small-step relation models concurrent writers serialized by the embedded
mutex.
-/

namespace Seqmut

/-- The number of values of a Go uint64; every sequence update in the source
is uint64 arithmetic, i.e. performed modulo this constant. -/
def uint64Card : Nat := 2 ^ 64

/-- Go: `type Stamp uint64`. A reader-owned snapshot of the sequence. -/
abbrev Stamp := Nat

/-- Go: `type RWMutex struct { mut sync.Mutex; sequence uint64 }`.
`mutHeld` models whether the embedded `sync.Mutex` is currently locked. -/
structure RWMutex where
  mutHeld : Bool
  sequence : Nat
  deriving Repr, DecidableEq

/-- Go `RStamp`: `stamp := Stamp(atomic.LoadUint64(&rw.sequence)); return &stamp`.
A pure atomic load of the sequence; no store to the lock's state. -/
def RWMutex.RStamp (rw : RWMutex) : Stamp := rw.sequence

/-- Go `Ok`: loads `current := rw.RStamp()`; if `(*stamp & 1) == 1` it sets
`*stamp = *current` and returns false; else if `*current != *stamp` it sets
`*stamp = *current` and returns false; else returns true. The returned pair
is (ok, the stamp value after the call), since Go mutates `*stamp` in place. -/
def RWMutex.Ok (rw : RWMutex) (stamp : Nat) : Bool × Stamp :=
  let current := rw.RStamp
  if stamp &&& 1 = 1 then (false, current)
  else if current ≠ stamp then (false, current)
  else (true, stamp)

/-- Go `Lock`: `rw.mut.Lock(); atomic.AddUint64(&rw.sequence, 1)`. The mutex
acquisition blocks until the mutex is free; this function gives the state
after a successful acquisition, with the uint64 increment wrapping mod 2^64. -/
def RWMutex.Lock (rw : RWMutex) : RWMutex :=
  { mutHeld := true, sequence := (rw.sequence + 1) % uint64Card }

/-- Go `Unlock`: `atomic.AddUint64(&rw.sequence, 1); rw.mut.Unlock()`. Go's
`sync.Mutex.Unlock` aborts with a fatal run-time error when the mutex is not
locked; the Bool records whether that abort fired, and the returned state is
the state as mutated up to that point (the sequence increment happens first,
before the mutex release is attempted). -/
def RWMutex.Unlock (rw : RWMutex) : Bool × RWMutex :=
  let rw1 : RWMutex := { rw with sequence := (rw.sequence + 1) % uint64Card }
  if rw1.mutHeld then (false, { rw1 with mutHeld := false })
  else (true, rw1)

/-- The spec's Validate algorithm, written from its words (spec §4.1):
atomically load the current sequence into `current`; if the original stamp
value is odd, set `stamp = current` and return false; else if
`current != stamp`, set `stamp = current` and return false; else return
true. Returns (result, stamp value after the call). -/
def validateSpec (current stamp : Nat) : Bool × Nat :=
  if stamp % 2 = 1 then (false, current)
  else if current ≠ stamp then (false, current)
  else (true, stamp)

/- Helper lemmas about the three branches of `Ok`. -/

lemma Ok_odd (rw : RWMutex) (stamp : Nat) (h : stamp % 2 = 1) :
    rw.Ok stamp = (false, rw.sequence) := by
  unfold RWMutex.Ok RWMutex.RStamp
  rw [Nat.and_one_is_mod]
  simp [h]

lemma Ok_even_ne (rw : RWMutex) (stamp : Nat) (h : stamp % 2 = 0)
    (hne : rw.sequence ≠ stamp) : rw.Ok stamp = (false, rw.sequence) := by
  unfold RWMutex.Ok RWMutex.RStamp
  rw [Nat.and_one_is_mod]
  simp [h, hne]

lemma Ok_even_eq (rw : RWMutex) (stamp : Nat) (h : stamp % 2 = 0)
    (heq : rw.sequence = stamp) : rw.Ok stamp = (true, stamp) := by
  unfold RWMutex.Ok RWMutex.RStamp
  rw [Nat.and_one_is_mod]
  simp [h, heq]

lemma two_dvd_uint64Card : (2 : Nat) ∣ uint64Card := by
  unfold uint64Card
  exact ⟨2 ^ 63, by norm_num⟩

lemma modW_mod_two (x : Nat) : x % uint64Card % 2 = x % 2 :=
  Nat.mod_mod_of_dvd x two_dvd_uint64Card

/-- C1: for every stamp, `Ok` computes exactly the spec's Validate algorithm
on the atomically loaded current sequence: odd original stamp fails and
refreshes the stamp, a changed sequence fails and refreshes the stamp, and
otherwise it succeeds. -/
theorem ok_follows_spec_validate (rw : RWMutex) (stamp : Nat) :
    rw.Ok stamp = validateSpec rw.sequence stamp := by
  unfold RWMutex.Ok RWMutex.RStamp validateSpec
  rw [Nat.and_one_is_mod]

/-- C3: `Ok` never returns true while a writer is inside its critical section:
whenever the current sequence is odd (which by the parity invariant is
exactly when a writer holds the lock), `Ok` returns false on every stamp. -/
theorem ok_false_while_writer_active (rw : RWMutex) (stamp : Nat)
    (hodd : rw.sequence % 2 = 1) : (rw.Ok stamp).1 = false := by
  by_cases h1 : stamp % 2 = 1
  · rw [Ok_odd rw stamp h1]
  · have h0 : stamp % 2 = 0 := by omega
    have hne : rw.sequence ≠ stamp := by
      intro he
      rw [he] at hodd
      omega
    rw [Ok_even_ne rw stamp h0 hne]

/-- Witness for C3 at a concrete writer-active state. -/
theorem ok_false_while_writer_active_witness :
    (RWMutex.mk true 1).sequence % 2 = 1 ∧
    ((RWMutex.mk true 1).Ok 0).1 = false :=
  ⟨by decide, ok_false_while_writer_active (RWMutex.mk true 1) 0 (by decide)⟩

lemma Unlock_held (rw : RWMutex) (h : rw.mutHeld = true) :
    rw.Unlock = (false, RWMutex.mk false ((rw.sequence + 1) % uint64Card)) := by
  unfold RWMutex.Unlock
  simp [h]

/-- C4: a stamp captured while a writer is active is odd, so after the writer
departs the first `Ok` on it fails (refreshing the stamp) and the retry on
the refreshed stamp succeeds: sequentially, Lock; s := RStamp; Unlock gives
Ok(s) = false and then Ok on the updated stamp = true. -/
theorem validate_during_writer (rw : RWMutex)
    (hfree : rw.mutHeld = false) (heven : rw.sequence % 2 = 0) :
    ((rw.Lock.Unlock).2.Ok rw.Lock.RStamp).1 = false ∧
    ((rw.Lock.Unlock).2.Ok ((rw.Lock.Unlock).2.Ok rw.Lock.RStamp).2).1 = true := by
  have hstamp : rw.Lock.RStamp = (rw.sequence + 1) % uint64Card := rfl
  have hU : (rw.Lock.Unlock).2 =
      RWMutex.mk false (((rw.sequence + 1) % uint64Card + 1) % uint64Card) := by
    rw [Unlock_held rw.Lock rfl]
    rfl
  have hs_odd : (rw.sequence + 1) % uint64Card % 2 = 1 := by
    rw [modW_mod_two]
    omega
  have hc_even : ((rw.sequence + 1) % uint64Card + 1) % uint64Card % 2 = 0 := by
    rw [modW_mod_two]
    omega
  rw [hU, hstamp, Ok_odd _ _ hs_odd]
  refine ⟨rfl, ?_⟩
  show ((RWMutex.mk false _).Ok (((rw.sequence + 1) % uint64Card + 1) % uint64Card)).1 = true
  rw [Ok_even_eq _ _ hc_even rfl]

/-- Witness for C4 on a fresh lock with sequence 0. -/
theorem validate_during_writer_witness :
    (RWMutex.mk false 0).mutHeld = false ∧
    (RWMutex.mk false 0).sequence % 2 = 0 ∧
    ((((RWMutex.mk false 0).Lock.Unlock).2.Ok
        (RWMutex.mk false 0).Lock.RStamp).1 = false ∧
      (((RWMutex.mk false 0).Lock.Unlock).2.Ok
        (((RWMutex.mk false 0).Lock.Unlock).2.Ok
          (RWMutex.mk false 0).Lock.RStamp).2).1 = true) :=
  ⟨rfl, rfl, validate_during_writer (RWMutex.mk false 0) rfl rfl⟩

/-- C5: when a writer's full Lock/Unlock pair precedes the reader's RStamp and
no other writer intervenes, the first `Ok` on that stamp succeeds (no false
negative from an already-departed writer). -/
theorem validate_after_departed_writer (rw : RWMutex)
    (hfree : rw.mutHeld = false) (heven : rw.sequence % 2 = 0) :
    ((rw.Lock.Unlock).2.Ok ((rw.Lock.Unlock).2.RStamp)).1 = true := by
  have hU : (rw.Lock.Unlock).2 =
      RWMutex.mk false (((rw.sequence + 1) % uint64Card + 1) % uint64Card) := by
    rw [Unlock_held rw.Lock rfl]
    rfl
  have hc_even : ((rw.sequence + 1) % uint64Card + 1) % uint64Card % 2 = 0 := by
    have hs_odd : (rw.sequence + 1) % uint64Card % 2 = 1 := by
      rw [modW_mod_two]
      omega
    rw [modW_mod_two]
    omega
  rw [hU]
  show ((RWMutex.mk false _).Ok
    (((rw.sequence + 1) % uint64Card + 1) % uint64Card)).1 = true
  rw [Ok_even_eq _ _ hc_even rfl]

/-- Witness for C5 on a fresh lock with sequence 0. -/
theorem validate_after_departed_writer_witness :
    (RWMutex.mk false 0).mutHeld = false ∧
    (RWMutex.mk false 0).sequence % 2 = 0 ∧
    (((RWMutex.mk false 0).Lock.Unlock).2.Ok
      (((RWMutex.mk false 0).Lock.Unlock).2.RStamp)).1 = true :=
  ⟨rfl, rfl, validate_after_departed_writer (RWMutex.mk false 0) rfl rfl⟩

/-- C6: wraparound safety, concretely at the maximum even uint64 value:
Lock at 2^64 - 2 yields the odd value 2^64 - 1, Unlock wraps the sequence
to the even value 0, and the `Ok` success/failure conditions are intact
across the wrap: a stamp taken after the wrap validates true, while a
pre-wrap stamp fails. -/
theorem wraparound_safety :
    (RWMutex.mk false (uint64Card - 2)).Lock.sequence = uint64Card - 1 ∧
    (uint64Card - 1) % 2 = 1 ∧
    ((RWMutex.mk false (uint64Card - 2)).Lock.Unlock).2.sequence = 0 ∧
    (0 : Nat) % 2 = 0 ∧
    (((RWMutex.mk false (uint64Card - 2)).Lock.Unlock).2.Ok
      (((RWMutex.mk false (uint64Card - 2)).Lock.Unlock).2.RStamp)).1 = true ∧
    (((RWMutex.mk false (uint64Card - 2)).Lock.Unlock).2.Ok
      (uint64Card - 2)).1 = false := by
  decide

/-- State-transformer view of `RStamp`: the Go method takes the receiver by
pointer and performs no store to it, returning only the loaded stamp. -/
def RWMutex.RStampST (rw : RWMutex) : RWMutex × Stamp := (rw, rw.RStamp)

/-- State-transformer view of `Ok`: the Go method stores only through the
caller-owned stamp pointer, never to the receiver's fields. -/
def RWMutex.OkST (rw : RWMutex) (stamp : Nat) : RWMutex × (Bool × Stamp) :=
  (rw, rw.Ok stamp)

/-- C7: only Lock and Unlock mutate the sequence, each by exactly +1 modulo
2^64 (so a matching pair changes it by exactly 2 net), while RStamp and Ok
leave the lock state entirely unchanged. -/
theorem only_writers_mutate_sequence (rw : RWMutex) (stamp : Nat) :
    (rw.RStampST).1 = rw ∧ (rw.OkST stamp).1 = rw ∧
    rw.Lock.sequence = (rw.sequence + 1) % uint64Card ∧
    (rw.Unlock).2.sequence = (rw.sequence + 1) % uint64Card ∧
    (rw.Lock.Unlock).2.sequence = (rw.sequence + 2) % uint64Card := by
  refine ⟨rfl, rfl, rfl, ?_, ?_⟩
  · cases h : rw.mutHeld with
    | false =>
        unfold RWMutex.Unlock
        simp [h]
    | true =>
        rw [Unlock_held rw h]
  · rw [Unlock_held rw.Lock rfl]
    show ((rw.sequence + 1) % uint64Card + 1) % uint64Card = _
    rw [Nat.mod_add_mod]

/-- C8 counterexample: on a quiescent lock (mutex free, even sequence 0),
the misuse Unlock-without-Lock does fire the abort, but the sequence has
already been incremented to an odd value when it fires, contradicting the
claim that the parity is left consistent with the no-writer-active state. -/
theorem unlock_misuse_counterexample :
    ((RWMutex.mk false 0).Unlock).1 = true ∧
    ¬ ((RWMutex.mk false 0).Unlock).2.sequence % 2 = 0 := by
  decide

/-- C8 (amended): calling Unlock without a prior matching Lock fails loudly
and immediately (the embedded mutex release aborts the program), but the
sequence increment precedes the failure: from an even, no-writer-active
sequence the misuse leaves the sequence odd at the moment of the abort. -/
theorem unlock_misuse_aborts_after_increment (rw : RWMutex)
    (hfree : rw.mutHeld = false) (heven : rw.sequence % 2 = 0) :
    (rw.Unlock).1 = true ∧ (rw.Unlock).2.sequence % 2 = 1 := by
  unfold RWMutex.Unlock
  simp [hfree, modW_mod_two]
  omega

/-- Witness for the amended C8 at the fresh lock. -/
theorem unlock_misuse_aborts_after_increment_witness :
    (RWMutex.mk false 0).mutHeld = false ∧
    (((RWMutex.mk false 0).Unlock).1 = true ∧
      ((RWMutex.mk false 0).Unlock).2.sequence % 2 = 1) :=
  ⟨rfl, unlock_misuse_aborts_after_increment (RWMutex.mk false 0) rfl rfl⟩

/-- C10: when `Ok` returns true it leaves the stamp unchanged, and a second
`Ok` on that stamp against the same state succeeds again. -/
theorem ok_true_preserves_stamp (rw : RWMutex) (stamp : Nat)
    (h : (rw.Ok stamp).1 = true) :
    (rw.Ok stamp).2 = stamp ∧ (rw.Ok (rw.Ok stamp).2).1 = true := by
  by_cases h1 : stamp % 2 = 1
  · rw [Ok_odd _ _ h1] at h
    exact absurd h (by simp)
  · have h0 : stamp % 2 = 0 := by omega
    by_cases h2 : rw.sequence = stamp
    · rw [Ok_even_eq _ _ h0 h2]
      refine ⟨rfl, ?_⟩
      show (rw.Ok stamp).1 = true
      rw [Ok_even_eq _ _ h0 h2]
    · rw [Ok_even_ne _ _ h0 h2] at h
      exact absurd h (by simp)

/-- Witness for C10 at the fresh lock with stamp 0. -/
theorem ok_true_preserves_stamp_witness :
    ((RWMutex.mk false 0).Ok 0).1 = true ∧
    (((RWMutex.mk false 0).Ok 0).2 = 0 ∧
      ((RWMutex.mk false 0).Ok ((RWMutex.mk false 0).Ok 0).2).1 = true) :=
  ⟨by decide, ok_true_preserves_stamp (RWMutex.mk false 0) 0 (by decide)⟩

/-!
Multi-writer small-step model. Each of `n` writer threads is either idle or
inside its critical section (between its Lock returning and its matching
Unlock). A Lock step is enabled only when the embedded mutex is free — Go's
`sync.Mutex.Lock` blocks until then — and performs the mutex acquisition
together with the sequence increment; an Unlock step is taken by a thread in
its critical section and performs the increment and the mutex release.
-/

/-- Phase of one writer thread: idle, or inside its critical section. -/
inductive WPhase where
  | idle : WPhase
  | inCS : WPhase
  deriving Repr, DecidableEq

/-- Global state shared by `n` writer threads: the mutex bit, the uint64
sequence, and each thread's phase. -/
structure MState (n : Nat) where
  held : Bool
  seq : Nat
  phase : Fin n → WPhase

/-- One step of the writer protocol from src/pkg/seqmut/rwmutex.go:
`lock` acquires the free mutex and increments the sequence (mod 2^64);
`unlock` increments the sequence (mod 2^64) and releases the mutex. -/
inductive MStep {n : Nat} : MState n → MState n → Prop where
  | lock (t : Fin n) (s : MState n) (hfree : s.held = false)
      (hidle : s.phase t = WPhase.idle) :
      MStep s ⟨true, (s.seq + 1) % uint64Card,
        Function.update s.phase t WPhase.inCS⟩
  | unlock (t : Fin n) (s : MState n) (hcs : s.phase t = WPhase.inCS) :
      MStep s ⟨false, (s.seq + 1) % uint64Card,
        Function.update s.phase t WPhase.idle⟩

/-- A valid initial state: mutex free, sequence any even uint64 value, all
writers idle. -/
def WInit {n : Nat} (s : MState n) : Prop :=
  s.held = false ∧ s.seq % 2 = 0 ∧ s.seq < uint64Card ∧
    ∀ t, s.phase t = WPhase.idle

/-- The inductive invariant: the sequence is a uint64; the mutex is held
exactly when some writer is in its critical section; at most one writer is
in its critical section; and the sequence is odd exactly when the mutex is
held. -/
def MInv {n : Nat} (s : MState n) : Prop :=
  s.seq < uint64Card ∧
  (s.held = true ↔ ∃ t, s.phase t = WPhase.inCS) ∧
  (∀ t u, s.phase t = WPhase.inCS → s.phase u = WPhase.inCS → t = u) ∧
  s.seq % 2 = (if s.held then 1 else 0)

lemma uint64Card_pos : 0 < uint64Card := by
  unfold uint64Card
  positivity

lemma MInv_of_WInit {n : Nat} {s : MState n} (h : WInit s) : MInv s := by
  obtain ⟨hheld, heven, hlt, hidle⟩ := h
  refine ⟨hlt, ?_, ?_, ?_⟩
  · constructor
    · intro ht
      rw [hheld] at ht
      exact absurd ht (by simp)
    · rintro ⟨t, ht⟩
      rw [hidle t] at ht
      exact absurd ht (by simp)
  · intro t u ht _
    rw [hidle t] at ht
    exact absurd ht (by simp)
  · rw [hheld]
    simpa using heven

lemma MInv_step {n : Nat} {s sn : MState n} (hinv : MInv s)
    (hstep : MStep s sn) : MInv sn := by
  obtain ⟨hlt, hheld, huniq, hpar⟩ := hinv
  cases hstep with
  | lock t s hfree hidle =>
      refine ⟨Nat.mod_lt _ uint64Card_pos, ?_, ?_, ?_⟩
      · constructor
        · intro _
          exact ⟨t, by simp [Function.update_same]⟩
        · intro _
          rfl
      · intro u v hu hv
        dsimp only at hu hv
        by_cases hut : u = t
        · by_cases hvt : v = t
          · rw [hut, hvt]
          · rw [Function.update_noteq hvt] at hv
            have : s.held = true := hheld.mpr ⟨v, hv⟩
            rw [hfree] at this
            exact absurd this (by simp)
        · rw [Function.update_noteq hut] at hu
          have : s.held = true := hheld.mpr ⟨u, hu⟩
          rw [hfree] at this
          exact absurd this (by simp)
      · have h0 : s.seq % 2 = 0 := by
          rw [hfree] at hpar
          simpa using hpar
        show (s.seq + 1) % uint64Card % 2 = _
        rw [modW_mod_two]
        simp
        omega
  | unlock t s hcs =>
      have hh : s.held = true := hheld.mpr ⟨t, hcs⟩
      refine ⟨Nat.mod_lt _ uint64Card_pos, ?_, ?_, ?_⟩
      · constructor
        · intro hf
          exact absurd hf (by simp)
        · rintro ⟨u, hu⟩
          dsimp only at hu
          by_cases hut : u = t
          · rw [hut, Function.update_same] at hu
            exact absurd hu (by simp)
          · rw [Function.update_noteq hut] at hu
            exact absurd (huniq u t hu hcs) hut
      · intro u v hu _
        dsimp only at hu
        by_cases hut : u = t
        · rw [hut, Function.update_same] at hu
          exact absurd hu (by simp)
        · rw [Function.update_noteq hut] at hu
          exact absurd (huniq u t hu hcs) hut
      · have h1 : s.seq % 2 = 1 := by
          rw [hh] at hpar
          simpa using hpar
        show (s.seq + 1) % uint64Card % 2 = _
        rw [modW_mod_two]
        simp
        omega

lemma MInv_of_reachable {n : Nat} {s0 s : MState n} (hinit : WInit s0)
    (hreach : Relation.ReflTransGen MStep s0 s) : MInv s := by
  induction hreach with
  | refl => exact MInv_of_WInit hinit
  | tail _ hstep ih => exact MInv_step ih hstep

/-- C2: starting from any valid initial state (even uint64 sequence, mutex
free, all writers idle), in every reachable state the sequence is odd exactly
when some writer is between its Lock return and its matching Unlock, and even
at every other state; the invariant is preserved by every step, including
across wraparound (the increments are mod 2^64). -/
theorem parity_invariant {n : Nat} (s0 s : MState n) (hinit : WInit s0)
    (hreach : Relation.ReflTransGen MStep s0 s) :
    (s.seq % 2 = 1 ↔ ∃ t, s.phase t = WPhase.inCS) := by
  obtain ⟨_, hheld, _, hpar⟩ := MInv_of_reachable hinit hreach
  constructor
  · intro hodd
    apply hheld.mp
    by_contra hf
    have : s.held = false := by
      cases h : s.held
      · rfl
      · exact absurd h hf
    rw [this] at hpar
    simp at hpar
    omega
  · intro hex
    rw [hheld.mpr hex] at hpar
    simpa using hpar

/-- The initial state used by the concrete witnesses: one writer thread,
mutex free, sequence 0, writer idle. -/
def wsInit : MState 1 := ⟨false, 0, fun _ => WPhase.idle⟩

/-- The state after the single writer's Lock step from `wsInit`. -/
def wsLocked : MState 1 :=
  ⟨true, (wsInit.seq + 1) % uint64Card,
    Function.update wsInit.phase 0 WPhase.inCS⟩

lemma wsInit_WInit : WInit wsInit :=
  ⟨rfl, rfl, uint64Card_pos, fun _ => rfl⟩

lemma wsLocked_reachable : Relation.ReflTransGen MStep wsInit wsLocked :=
  Relation.ReflTransGen.single (MStep.lock 0 wsInit rfl rfl)

/-- Witness for C2 at the concrete writer-active state after one Lock. -/
theorem parity_invariant_witness :
    (wsLocked.seq % 2 = 1 ↔ ∃ t, wsLocked.phase t = WPhase.inCS) :=
  parity_invariant wsInit wsLocked wsInit_WInit wsLocked_reachable

/-- C9: single-writer mutual exclusion: in every state reachable from a valid
initial state, at most one writer thread is between its Lock returning and
its matching Unlock — any two threads inside their critical sections at the
same instant are equal. The embedded mutex (whose acquisition is enabled only
when it is free) serializes the writers. -/
theorem single_writer_mutual_exclusion {n : Nat} (s0 s : MState n)
    (t u : Fin n) (hinit : WInit s0)
    (hreach : Relation.ReflTransGen MStep s0 s)
    (ht : s.phase t = WPhase.inCS) (hu : s.phase u = WPhase.inCS) : t = u := by
  obtain ⟨_, _, huniq, _⟩ := MInv_of_reachable hinit hreach
  exact huniq t u ht hu

/-- Witness for C9 at the concrete writer-active state after one Lock. -/
theorem single_writer_mutual_exclusion_witness :
    wsLocked.phase 0 = WPhase.inCS ∧ (0 : Fin 1) = 0 :=
  ⟨by simp [wsLocked, Function.update_same],
   single_writer_mutual_exclusion wsInit wsLocked 0 0 wsInit_WInit
     wsLocked_reachable (by simp [wsLocked, Function.update_same])
     (by simp [wsLocked, Function.update_same])⟩

end Seqmut
